import Mathlib

/-
Verification of the Wirestorm CTMP relay (Rust, two variants).

The definitions below are a shallow embedding of the repository's source:
  - `compute_checksum`, `parse_ctmp_message2` embed src/wirestorm2/src/ctmp.rs;
  - `parse_ctmp_message1` embeds src/wirestorm/src/ctmp.rs;
  - `broadcast`, `handle_source_step` and the `Op`/`run` trace semantics embed
    the broadcast loops of src/wirestorm/src/main.rs and
    src/wirestorm2/src/main.rs (every registry operation holds the single
    mutex for its full duration, so concurrent executions are interleavings
    of whole operations).

A TCP stream is modelled as the list of bytes it will deliver, together
with the kind of condition (`eof` for an orderly close, `other` for a
genuine I/O error) reported by the first read that runs past the end.
Bytes are natural numbers; machine arithmetic is explicit (`% U32` for
the u32 wrapping additions of `compute_checksum`).
-/

namespace Wirestorm

/-- Kind of the condition a failing read reports: `eof` models
`io::ErrorKind::UnexpectedEof` (peer closed), `other` models any other
`io::Error` kind. -/
inductive ErrKind : Type
  | eof : ErrKind
  | other : ErrKind
deriving DecidableEq, Repr

/-- A byte stream: the bytes still to be delivered, and the kind of
condition reported once a read runs past the end of `buf`. -/
structure ByteStream : Type where
  buf : List Nat
  endKind : ErrKind
deriving DecidableEq, Repr

/-- Big-endian 16-bit word from two bytes, as in `u16::from_be_bytes`. -/
def be16 (a b : Nat) : Nat := a * 256 + b

/-- The u32 modulus; `wrapping_add` on u32 is addition modulo this. -/
def U32 : Nat := 4294967296

/-- Word summation of `compute_checksum` (src/wirestorm2/src/ctmp.rs lines
18-31): big-endian 16-bit words via `chunks_exact(2)` accumulated with
`u32::wrapping_add`, an odd trailing byte shifted into the high byte. -/
def sumWords : List Nat → Nat → Nat
  | a :: b :: rest, sum => sumWords rest ((sum + be16 a b) % U32)
  | [b], sum => (sum + b * 256) % U32
  | [], sum => sum

/-- One iteration of the carry-fold loop body
`sum = (sum & 0xFFFF) + (sum >> 16)`. -/
def foldStep (s : Nat) : Nat := s % 65536 + s / 65536

/-- Fuel-indexed unrolling of the loop `while (sum >> 16) != 0`.  The fuel
only bounds the iteration count; `foldStep` strictly decreases the sum, so
fuel `s` always suffices (see `foldCarryAux_le`). -/
def foldCarryAux : Nat → Nat → Nat
  | 0, s => s
  | fuel + 1, s => if s / 65536 = 0 then s else foldCarryAux fuel (foldStep s)

/-- The carry-fold loop of `compute_checksum`: fold the carry above 16 bits
back into the low 16 bits until none remains. -/
def foldCarry (s : Nat) : Nat := foldCarryAux s s

/-- Embeds `compute_checksum` from src/wirestorm2/src/ctmp.rs: wrapping u32
word sum, carry fold, then the bitwise complement of the low 16 bits
(`!(sum as u16)` is `65535 - (sum % 65536)`). -/
def compute_checksum (buf : List Nat) : Nat :=
  65535 - (foldCarry (sumWords buf 0) % 65536)

/-- Modelled from the spec (section 4.1), for comparison with
`compute_checksum`: sum the consecutive big-endian 16-bit words without
any wrapping, treat an odd trailing byte as the high byte of a final word,
fold carries, and return the bitwise complement of the 16-bit result. -/
def specSumWords : List Nat → Nat
  | a :: b :: rest => be16 a b + specSumWords rest
  | [b] => b * 256
  | [] => 0

/-- The reference checksum built from the spec's words (section 4.1). -/
def spec_checksum (buf : List Nat) : Nat :=
  65535 - foldCarry (specSumWords buf)

/-- Core of `Read::read_exact`: take exactly `n` bytes off the front of the
buffer, or fail if the buffer is shorter than `n`. -/
def readExactAux : Nat → List Nat → Option (List Nat × List Nat)
  | 0, buf => some ([], buf)
  | _ + 1, [] => none
  | n + 1, b :: bs =>
    match readExactAux n bs with
    | some (tk, rem) => some (b :: tk, rem)
    | none => none

/-- `stream.read_exact` on the stream model: exactly `n` bytes are consumed,
or the read fails with the stream's end condition. -/
def readExact (n : Nat) (s : ByteStream) : Except ErrKind (List Nat × ByteStream) :=
  match readExactAux n s.buf with
  | some (tk, rem) => Except.ok (tk, ⟨rem, s.endKind⟩)
  | none => Except.error s.endKind

/-- Embeds `parse_ctmp_message` from src/wirestorm/src/ctmp.rs (part 1):
read 8 header bytes (UnexpectedEof gives Ok(None), other errors propagate),
require magic 0xCC, version byte 0x00 and bytes 4-7 zero, then read the
payload (any failure propagates via `?`) and return header ++ payload. -/
def parse_ctmp_message1 (s : ByteStream) : Except ErrKind (Option (List Nat × ByteStream)) :=
  match readExact 8 s with
  | Except.error e => if e = ErrKind.eof then Except.ok none else Except.error e
  | Except.ok (header, s1) =>
    if header.getD 0 0 ≠ 0xCC then Except.ok none
    else if header.getD 1 0 ≠ 0 then Except.ok none
    else if ¬ ([header.getD 4 0, header.getD 5 0, header.getD 6 0, header.getD 7 0]
                = [0, 0, 0, 0]) then Except.ok none
    else
      match readExact (be16 (header.getD 2 0) (header.getD 3 0)) s1 with
      | Except.error e => Except.error e
      | Except.ok (data, s2) => Except.ok (some (header ++ data, s2))

/-- Embeds `parse_ctmp_message` from src/wirestorm2/src/ctmp.rs (checksum
variant): any header-read failure gives Ok(None); require magic 0xCC; any
payload-read failure gives Ok(None); if options bit 6 is set, recompute the
checksum over the header with bytes 4-5 replaced by 0xCC,0xCC concatenated
with the payload and drop the frame on mismatch; return header ++ payload. -/
def parse_ctmp_message2 (s : ByteStream) : Except ErrKind (Option (List Nat × ByteStream)) :=
  match readExact 8 s with
  | Except.error _ => Except.ok none
  | Except.ok (header, s1) =>
    if header.getD 0 0 ≠ 0xCC then Except.ok none
    else
      match readExact (be16 (header.getD 2 0) (header.getD 3 0)) s1 with
      | Except.error _ => Except.ok none
      | Except.ok (data, s2) =>
        if header.getD 1 0 &&& 64 ≠ 0 then
          if compute_checksum ((header.set 4 0xCC).set 5 0xCC ++ data)
              ≠ be16 (header.getD 4 0) (header.getD 5 0)
          then Except.ok none
          else Except.ok (some (header ++ data, s2))
        else Except.ok (some (header ++ data, s2))

/-- A registered consumer sink: identity, whether its next write fails
(the peer is gone), and the bytes delivered to it so far. -/
structure Sink : Type where
  id : Nat
  failing : Bool
  received : List Nat
deriving DecidableEq, Repr

/-- `write_all` on a sink: delivers the whole message, or fails. -/
def writeAll (sk : Sink) (msg : List Nat) : Option Sink :=
  if sk.failing then none else some { sk with received := sk.received ++ msg }

/-- Embeds the broadcast loops of both main.rs files:
`clients.retain_mut(|c| c.write_all(&message).is_ok())` — write the message
to every registered sink in order, evicting exactly those whose write
fails, all inside one critical section. -/
def broadcast (msg : List Nat) : List Sink → List Sink
  | [] => []
  | sk :: rest =>
    match writeAll sk msg with
    | some sk1 => sk1 :: broadcast msg rest
    | none => broadcast msg rest

/-- One iteration of the source loop in `handle_source`
(src/wirestorm2/src/main.rs lines 23-48): a parsed frame is broadcast and
the loop continues on the rest of the stream; `Ok(None)` or `Err` ends the
session (`none`). -/
def handle_source_step (s : ByteStream) (sinks : List Sink) :
    List Sink × Option ByteStream :=
  match parse_ctmp_message2 s with
  | Except.ok (some (msg, s1)) => (broadcast msg sinks, some s1)
  | Except.ok none => (sinks, none)
  | Except.error _ => (sinks, none)

/-- A registry operation; each holds the single registry mutex for its full
duration in the source, so a concurrent execution is an interleaving of
whole operations, modelled as a list of `Op`. -/
inductive Op : Type
  | addSink (i : Nat) (failing : Bool) : Op
  | bcast (msg : List Nat) : Op
  | dropSinks (keep : Nat → Bool) : Op

/-- Effect of one registry operation: `addSink` pushes a fresh sink (new
consumers have received nothing), `bcast` is `broadcast` with eviction,
`dropSinks` is the consumer-side `retain` removing dead peers. -/
def regStep (st : List Sink) : Op → List Sink
  | Op.addSink i f => st ++ [⟨i, f, []⟩]
  | Op.bcast msg => broadcast msg st
  | Op.dropSinks keep => st.filter (fun sk => keep sk.id)

/-- Run a serialized history of registry operations from a state. -/
def run (ops : List Op) (st : List Sink) : List Sink :=
  ops.foldl regStep st

/-- The messages broadcast during a history, in order. -/
def msgsOf (ops : List Op) : List (List Nat) :=
  ops.filterMap (fun o => match o with | Op.bcast m => some m | _ => none)

theorem getD_cons0 (a : Nat) (l : List Nat) (d : Nat) : (a :: l).getD 0 d = a := rfl

theorem getD_cons1 (a b : Nat) (l : List Nat) (d : Nat) :
    (a :: b :: l).getD 1 d = b := rfl

theorem getD_cons2 (a b c : Nat) (l : List Nat) (d : Nat) :
    (a :: b :: c :: l).getD 2 d = c := rfl

theorem getD_cons3 (a b c e : Nat) (l : List Nat) (d : Nat) :
    (a :: b :: c :: e :: l).getD 3 d = e := rfl

theorem getD_cons4 (a b c e f : Nat) (l : List Nat) (d : Nat) :
    (a :: b :: c :: e :: f :: l).getD 4 d = f := rfl

theorem getD_cons5 (a b c e f g : Nat) (l : List Nat) (d : Nat) :
    (a :: b :: c :: e :: f :: g :: l).getD 5 d = g := rfl

theorem getD_cons6 (a b c e f g h : Nat) (l : List Nat) (d : Nat) :
    (a :: b :: c :: e :: f :: g :: h :: l).getD 6 d = h := rfl

theorem getD_cons7 (a b c e f g h i : Nat) (l : List Nat) (d : Nat) :
    (a :: b :: c :: e :: f :: g :: h :: i :: l).getD 7 d = i := rfl

theorem readExact8_cons (b0 b1 b2 b3 b4 b5 b6 b7 : Nat) (rest : List Nat) (k : ErrKind) :
    readExact 8 ⟨[b0, b1, b2, b3, b4, b5, b6, b7] ++ rest, k⟩
      = Except.ok ([b0, b1, b2, b3, b4, b5, b6, b7], ⟨rest, k⟩) := rfl

theorem readExactAux_append (p r : List Nat) :
    readExactAux p.length (p ++ r) = some (p, r) := by
  induction p with
  | nil => rfl
  | cons a as ih => simp [readExactAux, List.length_cons, ih]

theorem readExactAux_short (n : Nat) (buf : List Nat) (h : buf.length < n) :
    readExactAux n buf = none := by
  induction n generalizing buf with
  | zero => omega
  | succ m ih =>
    cases buf with
    | nil => rfl
    | cons b bs =>
      have : bs.length < m := by simpa [List.length_cons] using h
      simp [readExactAux, ih bs this]

theorem readExactAux_sound (n : Nat) (buf tk rem : List Nat)
    (h : readExactAux n buf = some (tk, rem)) :
    tk.length = n ∧ buf = tk ++ rem := by
  induction n generalizing buf tk rem with
  | zero =>
    simp only [readExactAux, Option.some.injEq, Prod.mk.injEq] at h
    obtain ⟨h1, h2⟩ := h
    simp [← h1, ← h2]
  | succ m ih =>
    cases buf with
    | nil => simp [readExactAux] at h
    | cons b bs =>
      simp only [readExactAux] at h
      cases hr : readExactAux m bs with
      | none => rw [hr] at h; simp at h
      | some pr =>
        obtain ⟨tk0, rem0⟩ := pr
        rw [hr] at h
        simp only [Option.some.injEq, Prod.mk.injEq] at h
        obtain ⟨h1, h2⟩ := h
        obtain ⟨hl, hb⟩ := ih bs tk0 rem0 hr
        subst h2
        simp [← h1, hl, hb]

theorem readExact_append (p r : List Nat) (k : ErrKind) :
    readExact p.length ⟨p ++ r, k⟩ = Except.ok (p, ⟨r, k⟩) := by
  simp [readExact, readExactAux_append]

theorem readExact_of_length (n : Nat) (p r : List Nat) (k : ErrKind) (h : p.length = n) :
    readExact n ⟨p ++ r, k⟩ = Except.ok (p, ⟨r, k⟩) := by
  rw [← h]; exact readExact_append p r k

theorem readExact_short (n : Nat) (buf : List Nat) (k : ErrKind) (h : buf.length < n) :
    readExact n ⟨buf, k⟩ = Except.error k := by
  simp [readExact, readExactAux_short n buf h]

theorem readExact_sound (n : Nat) (s : ByteStream) (tk : List Nat) (s1 : ByteStream)
    (h : readExact n s = Except.ok (tk, s1)) :
    tk.length = n ∧ s.buf = tk ++ s1.buf ∧ s1.endKind = s.endKind := by
  unfold readExact at h
  cases hr : readExactAux n s.buf with
  | none => rw [hr] at h; simp at h
  | some pr =>
    obtain ⟨tk0, rem0⟩ := pr
    rw [hr] at h
    simp only [Except.ok.injEq, Prod.mk.injEq] at h
    obtain ⟨h1, h2⟩ := h
    obtain ⟨hl, hb⟩ := readExactAux_sound n s.buf tk0 rem0 hr
    subst h1
    refine ⟨hl, ?_, ?_⟩
    · rw [hb, ← h2]
    · rw [← h2]

theorem set45 (a b c e f g h i x y : Nat) :
    ([a, b, c, e, f, g, h, i].set 4 x).set 5 y = [a, b, c, e, x, y, h, i] := rfl

theorem parse1_short_header (buf : List Nat) (k : ErrKind) (h : buf.length < 8) :
    parse_ctmp_message1 ⟨buf, k⟩
      = if k = ErrKind.eof then Except.ok none else Except.error k := by
  simp only [parse_ctmp_message1, readExact_short 8 buf k h]

theorem parse2_short_header (buf : List Nat) (k : ErrKind) (h : buf.length < 8) :
    parse_ctmp_message2 ⟨buf, k⟩ = Except.ok none := by
  simp only [parse_ctmp_message2, readExact_short 8 buf k h]

theorem parse1_badmagic (b0 b1 b2 b3 b4 b5 b6 b7 : Nat) (rest : List Nat) (k : ErrKind)
    (hb : b0 ≠ 0xCC) :
    parse_ctmp_message1 ⟨[b0, b1, b2, b3, b4, b5, b6, b7] ++ rest, k⟩ = Except.ok none := by
  simp only [parse_ctmp_message1, readExact8_cons, getD_cons0]
  rw [if_pos hb]

theorem parse2_badmagic (b0 b1 b2 b3 b4 b5 b6 b7 : Nat) (rest : List Nat) (k : ErrKind)
    (hb : b0 ≠ 0xCC) :
    parse_ctmp_message2 ⟨[b0, b1, b2, b3, b4, b5, b6, b7] ++ rest, k⟩ = Except.ok none := by
  simp only [parse_ctmp_message2, readExact8_cons, getD_cons0]
  rw [if_pos hb]

theorem parse1_reject (b1 l1 l2 b4 b5 b6 b7 : Nat) (rest : List Nat) (k : ErrKind)
    (h : ¬(b1 = 0 ∧ b4 = 0 ∧ b5 = 0 ∧ b6 = 0 ∧ b7 = 0)) :
    parse_ctmp_message1 ⟨[0xCC, b1, l1, l2, b4, b5, b6, b7] ++ rest, k⟩
      = Except.ok none := by
  simp only [parse_ctmp_message1, readExact8_cons, getD_cons0, getD_cons1, getD_cons2,
    getD_cons3, getD_cons4, getD_cons5, getD_cons6, getD_cons7]
  by_cases hb1 : b1 = 0
  · have h4 : ¬(b4 = 0 ∧ b5 = 0 ∧ b6 = 0 ∧ b7 = 0) := fun hc => h ⟨hb1, hc⟩
    simp [hb1, h4]
  · simp [hb1]

theorem parse1_success (l1 l2 : Nat) (payload rest : List Nat) (k : ErrKind)
    (hlen : payload.length = be16 l1 l2) :
    parse_ctmp_message1 ⟨[0xCC, 0, l1, l2, 0, 0, 0, 0] ++ (payload ++ rest), k⟩
      = Except.ok (some ([0xCC, 0, l1, l2, 0, 0, 0, 0] ++ payload, ⟨rest, k⟩)) := by
  simp only [parse_ctmp_message1, readExact8_cons, getD_cons0, getD_cons1, getD_cons2,
    getD_cons3, getD_cons4, getD_cons5, getD_cons6, getD_cons7,
    readExact_of_length (be16 l1 l2) payload rest k hlen]
  norm_num

theorem parse1_short_payload (l1 l2 : Nat) (rest : List Nat) (k : ErrKind)
    (h : rest.length < be16 l1 l2) :
    parse_ctmp_message1 ⟨[0xCC, 0, l1, l2, 0, 0, 0, 0] ++ rest, k⟩
      = Except.error k := by
  simp only [parse_ctmp_message1, readExact8_cons, getD_cons0, getD_cons1, getD_cons2,
    getD_cons3, getD_cons4, getD_cons5, getD_cons6, getD_cons7,
    readExact_short (be16 l1 l2) rest k h]
  norm_num

theorem parse2_short_payload (o l1 l2 c1 c2 r1 r2 : Nat) (rest : List Nat) (k : ErrKind)
    (h : rest.length < be16 l1 l2) :
    parse_ctmp_message2 ⟨[0xCC, o, l1, l2, c1, c2, r1, r2] ++ rest, k⟩
      = Except.ok none := by
  simp only [parse_ctmp_message2, readExact8_cons, getD_cons0, getD_cons1, getD_cons2,
    getD_cons3, getD_cons4, getD_cons5, getD_cons6, getD_cons7,
    readExact_short (be16 l1 l2) rest k h]
  norm_num

theorem parse2_eval (o l1 l2 c1 c2 r1 r2 : Nat) (payload rest : List Nat) (k : ErrKind)
    (hlen : payload.length = be16 l1 l2) :
    parse_ctmp_message2 ⟨[0xCC, o, l1, l2, c1, c2, r1, r2] ++ (payload ++ rest), k⟩
      = if o &&& 64 ≠ 0 then
          (if compute_checksum ([0xCC, o, l1, l2, 0xCC, 0xCC, r1, r2] ++ payload)
              ≠ be16 c1 c2
           then Except.ok none
           else Except.ok (some ([0xCC, o, l1, l2, c1, c2, r1, r2] ++ payload, ⟨rest, k⟩)))
        else Except.ok (some ([0xCC, o, l1, l2, c1, c2, r1, r2] ++ payload, ⟨rest, k⟩)) := by
  simp only [parse_ctmp_message2, readExact8_cons, getD_cons0, getD_cons1, getD_cons2,
    getD_cons3, getD_cons4, getD_cons5, getD_cons6, getD_cons7,
    readExact_of_length (be16 l1 l2) payload rest k hlen, set45]
  norm_num

theorem foldStep_lt (s : Nat) (h : 65536 ≤ s) : foldStep s < s := by
  unfold foldStep
  omega

theorem foldCarryAux_lt (fuel : Nat) : ∀ s : Nat, s ≤ fuel → foldCarryAux fuel s < 65536 := by
  induction fuel with
  | zero =>
    intro s hs
    have : s = 0 := Nat.le_zero.mp hs
    simp [foldCarryAux, this]
  | succ m ih =>
    intro s hs
    rw [foldCarryAux]
    by_cases hdiv : s / 65536 = 0
    · rw [if_pos hdiv]
      omega
    · rw [if_neg hdiv]
      refine ih (foldStep s) ?_
      have h1 : 65536 ≤ s := by
        by_contra hc
        exact hdiv (Nat.div_eq_of_lt (by omega))
      have := foldStep_lt s h1
      omega

theorem foldCarry_lt (s : Nat) : foldCarry s < 65536 :=
  foldCarryAux_lt s s (Nat.le_refl s)

theorem sumWords_eq : ∀ (l : List Nat) (s : Nat), s < U32 →
    sumWords l s = (s + specSumWords l) % U32
  | [], s, h => by
    simp only [sumWords, specSumWords, Nat.add_zero]
    exact (Nat.mod_eq_of_lt h).symm
  | [b], s, _ => by
    simp only [sumWords, specSumWords]
  | a :: b :: rest, s, h => by
    rw [sumWords, specSumWords,
      sumWords_eq rest ((s + be16 a b) % U32) (Nat.mod_lt _ (by norm_num [U32])),
      Nat.mod_add_mod, Nat.add_assoc]

theorem specSumWords_replicate : ∀ n : Nat,
    specSumWords (List.replicate (2 * n) 255) = n * 65535 := by
  intro n
  induction n with
  | zero => simp [specSumWords]
  | succ m ih =>
    have h2 : 2 * (m + 1) = (2 * m + 1) + 1 := by ring
    rw [h2, List.replicate_succ, List.replicate_succ, specSumWords, ih]
    norm_num [be16]
    ring

theorem writeAll_ok (sk : Sink) (msg : List Nat) (h : sk.failing = false) :
    writeAll sk msg = some { sk with received := sk.received ++ msg } := by
  simp [writeAll, h]

theorem writeAll_fail (sk : Sink) (msg : List Nat) (h : sk.failing = true) :
    writeAll sk msg = none := by
  simp [writeAll, h]

theorem broadcast_all_ok (msg : List Nat) (l : List Sink)
    (h : ∀ sk ∈ l, sk.failing = false) :
    broadcast msg l = l.map (fun sk => { sk with received := sk.received ++ msg }) := by
  induction l with
  | nil => rfl
  | cons sk rest ih =>
    rw [broadcast, writeAll_ok sk msg (h sk (List.mem_cons_self sk rest)), List.map_cons]
    exact congrArg _ (ih fun x hx => h x (List.mem_cons_of_mem sk hx))

theorem mem_broadcast (msg : List Nat) (l : List Sink) (sk1 : Sink)
    (h : sk1 ∈ broadcast msg l) :
    ∃ sk ∈ l, sk1 = { sk with received := sk.received ++ msg } := by
  induction l with
  | nil => simp [broadcast] at h
  | cons sk rest ih =>
    rw [broadcast] at h
    by_cases hf : sk.failing
    · rw [writeAll_fail sk msg hf] at h
      obtain ⟨sk0, hsk0, he⟩ := ih h
      exact ⟨sk0, List.mem_cons_of_mem sk hsk0, he⟩
    · rw [writeAll_ok sk msg (Bool.eq_false_iff.mpr hf)] at h
      rcases List.mem_cons.mp h with he | hm
      · exact ⟨sk, List.mem_cons_self sk rest, he⟩
      · obtain ⟨sk0, hsk0, he⟩ := ih hm
        exact ⟨sk0, List.mem_cons_of_mem sk hsk0, he⟩

theorem run_nil (st : List Sink) : run [] st = st := rfl

theorem run_cons (op : Op) (ops : List Op) (st : List Sink) :
    run (op :: ops) st = run ops (regStep st op) := rfl

theorem msgsOf_addSink (i : Nat) (f : Bool) (ops : List Op) :
    msgsOf (Op.addSink i f :: ops) = msgsOf ops := rfl

theorem msgsOf_bcast (m : List Nat) (ops : List Op) :
    msgsOf (Op.bcast m :: ops) = m :: msgsOf ops := rfl

theorem msgsOf_dropSinks (p : Nat → Bool) (ops : List Op) :
    msgsOf (Op.dropSinks p :: ops) = msgsOf ops := rfl

theorem run_received_join : ∀ (ops : List Op) (st : List Sink) (M : List (List Nat)),
    (∀ sk ∈ st, ∃ ms : List (List Nat), ms ⊆ M ∧ sk.received = ms.flatten) →
    ∀ sk ∈ run ops st,
      ∃ ms : List (List Nat), ms ⊆ M ++ msgsOf ops ∧ sk.received = ms.flatten := by
  intro ops
  induction ops with
  | nil =>
    intro st M h0 sk hsk
    rw [run_nil] at hsk
    obtain ⟨ms, hsub, hrec⟩ := h0 sk hsk
    exact ⟨ms, hsub.trans (List.subset_append_left _ _), hrec⟩
  | cons op rest ih =>
    intro st M h0 sk hsk
    rw [run_cons] at hsk
    cases op with
    | addSink i f =>
      have h1 : ∀ x ∈ regStep st (Op.addSink i f),
          ∃ ms : List (List Nat), ms ⊆ M ∧ x.received = ms.flatten := by
        intro x hx
        rw [regStep] at hx
        rcases List.mem_append.mp hx with hx | hx
        · exact h0 x hx
        · have hx1 : x = ⟨i, f, []⟩ := by simpa using hx
          exact ⟨[], by simp, by simp [hx1]⟩
      obtain ⟨ms, hsub, hrec⟩ := ih (regStep st (Op.addSink i f)) M h1 sk hsk
      rw [msgsOf_addSink]
      exact ⟨ms, hsub, hrec⟩
    | bcast m =>
      have h1 : ∀ x ∈ regStep st (Op.bcast m),
          ∃ ms : List (List Nat), ms ⊆ M ++ [m] ∧ x.received = ms.flatten := by
        intro x hx
        rw [regStep] at hx
        obtain ⟨sk0, hsk0, hx1⟩ := mem_broadcast m st x hx
        obtain ⟨ms, hsub, hrec⟩ := h0 sk0 hsk0
        refine ⟨ms ++ [m], ?_, ?_⟩
        · exact List.append_subset.mpr
            ⟨hsub.trans (List.subset_append_left _ _), by simp⟩
        · rw [hx1]
          simp [hrec]
      obtain ⟨ms, hsub, hrec⟩ := ih (regStep st (Op.bcast m)) (M ++ [m]) h1 sk hsk
      refine ⟨ms, ?_, hrec⟩
      rw [msgsOf_bcast]
      intro x hx
      have := hsub hx
      simp only [List.mem_append, List.mem_singleton, List.mem_cons] at this ⊢
      tauto
    | dropSinks p =>
      have h1 : ∀ x ∈ regStep st (Op.dropSinks p),
          ∃ ms : List (List Nat), ms ⊆ M ∧ x.received = ms.flatten := by
        intro x hx
        rw [regStep] at hx
        exact h0 x (List.mem_of_mem_filter hx)
      obtain ⟨ms, hsub, hrec⟩ := ih (regStep st (Op.dropSinks p)) M h1 sk hsk
      rw [msgsOf_dropSinks]
      exact ⟨ms, hsub, hrec⟩

theorem broadcast_split (msg : List Nat) (post : List Sink) (k : Sink)
    (hk : k.failing = true) (hpost : ∀ sk ∈ post, sk.failing = false) :
    ∀ pre : List Sink, (∀ sk ∈ pre, sk.failing = false) →
    broadcast msg (pre ++ k :: post)
      = (pre ++ post).map (fun sk => { sk with received := sk.received ++ msg }) := by
  intro pre
  induction pre with
  | nil =>
    intro _
    simp only [List.nil_append, broadcast, writeAll_fail k msg hk]
    exact broadcast_all_ok msg post hpost
  | cons a as ih =>
    intro hpre
    simp only [List.cons_append, broadcast,
      writeAll_ok a msg (hpre a (List.mem_cons_self a as)), List.map_cons]
    exact congrArg _ (ih fun x hx => hpre x (List.mem_cons_of_mem a hx))

/-- Claim C1, counterexample: the failure causes are not distinct outcomes.
A header whose first byte is not 0xCC produces exactly the same result
(`Ok None`) as a stream that ends before any header byte, in both parsers;
and in the checksum parser an end-of-stream mid-payload also produces that
same result. -/
theorem protocol_violation_not_distinct :
    parse_ctmp_message1 ⟨[0xAA, 0, 0, 0, 0, 0, 0, 0], ErrKind.eof⟩
        = parse_ctmp_message1 ⟨[], ErrKind.eof⟩
      ∧ parse_ctmp_message2 ⟨[0xAA, 0, 0, 0, 0, 0, 0, 0], ErrKind.eof⟩
        = parse_ctmp_message2 ⟨[], ErrKind.eof⟩
      ∧ parse_ctmp_message2 ⟨[0xCC, 0, 0, 5, 0, 0, 0, 0, 1, 2], ErrKind.eof⟩
        = parse_ctmp_message2 ⟨[], ErrKind.eof⟩ :=
  ⟨rfl, rfl, rfl⟩

/-- Claim C1, amended: a header read that fails (the stream holds fewer
than 8 bytes, even after delivering some header bytes) gives `Ok None`; a
full header whose first byte is not 0xCC gives the same `Ok None` outcome,
not a distinct one, in both parsers; an end-of-stream or error mid-payload
is a distinct `Err` outcome in the part-1 parser but `Ok None` again in
the checksum parser. -/
theorem parse_failure_outcomes :
    (∀ (buf : List Nat) (k : ErrKind), buf.length < 8 →
        parse_ctmp_message1 ⟨buf, ErrKind.eof⟩ = Except.ok none
          ∧ parse_ctmp_message2 ⟨buf, k⟩ = Except.ok none)
    ∧ (∀ (b0 b1 b2 b3 b4 b5 b6 b7 : Nat) (rest : List Nat) (k : ErrKind),
        b0 ≠ 0xCC →
        parse_ctmp_message1 ⟨[b0, b1, b2, b3, b4, b5, b6, b7] ++ rest, k⟩ = Except.ok none
          ∧ parse_ctmp_message2 ⟨[b0, b1, b2, b3, b4, b5, b6, b7] ++ rest, k⟩
            = Except.ok none)
    ∧ (∀ (l1 l2 : Nat) (rest : List Nat) (k : ErrKind), rest.length < be16 l1 l2 →
        parse_ctmp_message1 ⟨[0xCC, 0, l1, l2, 0, 0, 0, 0] ++ rest, k⟩ = Except.error k
          ∧ parse_ctmp_message2 ⟨[0xCC, 0, l1, l2, 0, 0, 0, 0] ++ rest, k⟩
            = Except.ok none) := by
  refine ⟨?_, ?_, ?_⟩
  · intro buf k h
    refine ⟨?_, parse2_short_header buf k h⟩
    rw [parse1_short_header buf ErrKind.eof h, if_pos rfl]
  · intro b0 b1 b2 b3 b4 b5 b6 b7 rest k hb
    exact ⟨parse1_badmagic b0 b1 b2 b3 b4 b5 b6 b7 rest k hb,
      parse2_badmagic b0 b1 b2 b3 b4 b5 b6 b7 rest k hb⟩
  · intro l1 l2 rest k h
    exact ⟨parse1_short_payload l1 l2 rest k h,
      parse2_short_payload 0 l1 l2 0 0 0 0 rest k h⟩

/-- Witness for the amended C1 theorem at concrete inputs. -/
theorem parse_failure_outcomes_witness :
    ([] : List Nat).length < 8
    ∧ parse_ctmp_message1 ⟨[], ErrKind.eof⟩ = Except.ok none
    ∧ (0xAB : Nat) ≠ 0xCC
    ∧ parse_ctmp_message2 ⟨[0xAB, 0, 0, 0, 0, 0, 0, 0] ++ [], ErrKind.other⟩
        = Except.ok none
    ∧ ([9] : List Nat).length < be16 0 3
    ∧ parse_ctmp_message1 ⟨[0xCC, 0, 0, 3, 0, 0, 0, 0] ++ [9], ErrKind.other⟩
        = Except.error ErrKind.other :=
  ⟨by decide,
   (parse_failure_outcomes.1 [] ErrKind.eof (by decide)).1,
   by decide,
   (parse_failure_outcomes.2.1 0xAB 0 0 0 0 0 0 0 [] ErrKind.other (by decide)).2,
   by decide,
   (parse_failure_outcomes.2.2 0 3 [9] ErrKind.other (by decide)).1⟩

/-- Claim C2: broadcasting to a registry in which exactly sink `k` fails
leaves exactly the other sinks, in order, each having received the complete
message appended to its log, and `k` absent; `broadcast` performs the
writes and the eviction as one atomic registry operation (the source holds
the registry mutex for the whole `retain_mut`). -/
theorem broadcast_evicts_failing_sink (msg : List Nat) (pre post : List Sink) (k : Sink)
    (hk : k.failing = true)
    (hpre : ∀ sk ∈ pre, sk.failing = false)
    (hpost : ∀ sk ∈ post, sk.failing = false)
    (hid : k.id ∉ (pre ++ post).map Sink.id) :
    broadcast msg (pre ++ k :: post)
        = (pre ++ post).map (fun sk => { sk with received := sk.received ++ msg })
      ∧ (broadcast msg (pre ++ k :: post)).length = pre.length + post.length
      ∧ k.id ∉ (broadcast msg (pre ++ k :: post)).map Sink.id
      ∧ ∀ sk1 ∈ broadcast msg (pre ++ k :: post),
          ∃ sk0 ∈ pre ++ post, sk1.received = sk0.received ++ msg := by
  have hmain := broadcast_split msg post k hk hpost pre hpre
  refine ⟨hmain, ?_, ?_, ?_⟩
  · rw [hmain]; simp
  · rw [hmain]
    intro hc
    refine hid ?_
    simpa [List.map_map, Function.comp] using hc
  · intro sk1 h1
    rw [hmain] at h1
    obtain ⟨sk0, h0, he⟩ := List.mem_map.mp h1
    exact ⟨sk0, h0, by rw [← he]⟩

/-- Witness for C2 at a concrete registry of three sinks with the middle
one failing. -/
theorem broadcast_evicts_failing_sink_witness :
    (⟨2, true, []⟩ : Sink).failing = true
    ∧ broadcast [7, 8] [⟨1, false, []⟩, ⟨2, true, []⟩, ⟨3, false, [5]⟩]
        = [⟨1, false, [7, 8]⟩, ⟨3, false, [5, 7, 8]⟩]
    ∧ (2 : Nat) ∉ (broadcast [7, 8] [⟨1, false, []⟩, ⟨2, true, []⟩, ⟨3, false, [5]⟩]).map
        Sink.id := by
  have h := broadcast_evicts_failing_sink [7, 8] [⟨1, false, []⟩] [⟨3, false, [5]⟩]
    ⟨2, true, []⟩ rfl (by decide) (by decide) (by decide)
  exact ⟨rfl, h.1, h.2.2.1⟩

/-- Claim C9: the checksum-supporting parser never returns the `Err`
variant: every result is `Ok`, so an I/O error is indistinguishable from a
clean close at its interface. -/
theorem parse2_total_ok (s : ByteStream) :
    ∃ v : Option (List Nat × ByteStream), parse_ctmp_message2 s = Except.ok v := by
  unfold parse_ctmp_message2
  split
  · exact ⟨none, rfl⟩
  · split
    · exact ⟨none, rfl⟩
    · split
      · exact ⟨none, rfl⟩
      · split
        · split
          · exact ⟨none, rfl⟩
          · exact ⟨some _, rfl⟩
        · exact ⟨some _, rfl⟩

/-- Claim C10: the carry-fold loop of `compute_checksum` strictly decreases
the sum whenever it exceeds 16 bits, so it terminates with a value below
2^16, and `compute_checksum` is total with a 16-bit result. -/
theorem checksum_fold_terminates :
    (∀ s : Nat, 65536 ≤ s → foldStep s < s)
    ∧ (∀ s : Nat, foldCarry s < 65536)
    ∧ (∀ buf : List Nat, compute_checksum buf < 65536) := by
  refine ⟨foldStep_lt, foldCarry_lt, ?_⟩
  intro buf
  unfold compute_checksum
  omega

/-- Witness for C10 at concrete inputs. -/
theorem checksum_fold_terminates_witness :
    65536 ≤ 70000 ∧ foldStep 70000 < 70000
      ∧ foldCarry 70000 < 65536 ∧ compute_checksum [1, 2, 3] < 65536 :=
  ⟨by decide, checksum_fold_terminates.1 70000 (by decide),
   checksum_fold_terminates.2.1 70000, checksum_fold_terminates.2.2 [1, 2, 3]⟩

/-- Claim C3: for a frame whose options byte has bit 6 set, the parser
recomputes the checksum over the 8 header bytes with bytes 4-5 replaced by
0xCC,0xCC concatenated with the payload; on mismatch the frame is dropped
(`Ok None`) and the source session terminates, while a matching checksum
lets the frame be broadcast. -/
theorem sensitive_checksum_gate (o l1 l2 c1 c2 r1 r2 : Nat) (payload rest : List Nat)
    (k : ErrKind) (sinks : List Sink)
    (ho : o &&& 64 ≠ 0) (hlen : payload.length = be16 l1 l2) :
    (compute_checksum ([0xCC, o, l1, l2, 0xCC, 0xCC, r1, r2] ++ payload) ≠ be16 c1 c2 →
        parse_ctmp_message2 ⟨[0xCC, o, l1, l2, c1, c2, r1, r2] ++ (payload ++ rest), k⟩
            = Except.ok none
          ∧ handle_source_step
              ⟨[0xCC, o, l1, l2, c1, c2, r1, r2] ++ (payload ++ rest), k⟩ sinks
            = (sinks, none))
    ∧ (compute_checksum ([0xCC, o, l1, l2, 0xCC, 0xCC, r1, r2] ++ payload) = be16 c1 c2 →
        handle_source_step
            ⟨[0xCC, o, l1, l2, c1, c2, r1, r2] ++ (payload ++ rest), k⟩ sinks
          = (broadcast ([0xCC, o, l1, l2, c1, c2, r1, r2] ++ payload) sinks,
              some ⟨rest, k⟩)) := by
  have he := parse2_eval o l1 l2 c1 c2 r1 r2 payload rest k hlen
  constructor
  · intro hck
    have hp : parse_ctmp_message2
        ⟨[0xCC, o, l1, l2, c1, c2, r1, r2] ++ (payload ++ rest), k⟩ = Except.ok none := by
      rw [he, if_pos ho, if_pos hck]
    refine ⟨hp, ?_⟩
    rw [handle_source_step, hp]
  · intro hck
    have hp : parse_ctmp_message2
        ⟨[0xCC, o, l1, l2, c1, c2, r1, r2] ++ (payload ++ rest), k⟩
          = Except.ok (some ([0xCC, o, l1, l2, c1, c2, r1, r2] ++ payload, ⟨rest, k⟩)) := by
      rw [he, if_pos ho, if_neg (not_not_intro hck)]
    rw [handle_source_step, hp]

/-- Witness for C3: the sensitive frame with payload "test" and correct
checksum 0x7F14 is forwarded; flipping a checksum bit drops it. -/
theorem sensitive_checksum_gate_witness :
    ((0x40 : Nat) &&& 64 ≠ 0)
    ∧ ([116, 101, 115, 116] : List Nat).length = be16 0 4
    ∧ handle_source_step
        ⟨[0xCC, 0x40, 0, 4, 0x7F, 0x14, 0, 0] ++ ([116, 101, 115, 116] ++ []),
          ErrKind.eof⟩ [⟨1, false, []⟩]
        = (broadcast ([0xCC, 0x40, 0, 4, 0x7F, 0x14, 0, 0] ++ [116, 101, 115, 116])
            [⟨1, false, []⟩], some ⟨[], ErrKind.eof⟩)
    ∧ parse_ctmp_message2
        ⟨[0xCC, 0x40, 0, 4, 0x7F, 0x15, 0, 0] ++ ([116, 101, 115, 116] ++ []),
          ErrKind.eof⟩ = Except.ok none := by
  refine ⟨by decide, by decide, ?_, ?_⟩
  · exact (sensitive_checksum_gate 0x40 0 4 0x7F 0x14 0 0 [116, 101, 115, 116] []
      ErrKind.eof [⟨1, false, []⟩] (by decide) (by decide)).2 (by decide)
  · exact ((sensitive_checksum_gate 0x40 0 4 0x7F 0x15 0 0 [116, 101, 115, 116] []
      ErrKind.eof [] (by decide) (by decide)).1 (by decide)).1

/-- Claim C4, counterexample: `compute_checksum` accumulates in a wrapping
u32, so on a buffer whose unbounded word sum reaches 2^32 (131076 bytes of
0xFF) it differs from the reference definition, which folds the unbounded
sum: the code yields 1, the reference 0. -/
theorem checksum_wrap_divergence :
    compute_checksum (List.replicate 131076 255) = 1
      ∧ spec_checksum (List.replicate 131076 255) = 0
      ∧ compute_checksum (List.replicate 131076 255)
          ≠ spec_checksum (List.replicate 131076 255) := by
  have h2 : (131076 : Nat) = 2 * 65538 := by norm_num
  have hs : specSumWords (List.replicate 131076 255) = 65538 * 65535 := by
    rw [h2, specSumWords_replicate]
  have hw : sumWords (List.replicate 131076 255) 0 = 65534 := by
    rw [sumWords_eq _ 0 (by norm_num [U32]), hs]
    norm_num [U32]
  have hc : compute_checksum (List.replicate 131076 255) = 1 := by
    rw [compute_checksum, hw]
    decide
  have hsp : spec_checksum (List.replicate 131076 255) = 0 := by
    rw [spec_checksum, hs]
    decide
  exact ⟨hc, hsp, by rw [hc, hsp]; decide⟩

/-- Claim C4, amended: on every buffer whose unbounded word sum fits in a
u32 — in particular every buffer the parser ever checksums, which is at
most 8 + 65535 bytes — `compute_checksum` equals the reference definition
built from the spec; both are pure functions of the buffer. -/
theorem checksum_matches_reference (buf : List Nat) (h : specSumWords buf < U32) :
    compute_checksum buf = spec_checksum buf := by
  unfold compute_checksum spec_checksum
  rw [sumWords_eq buf 0 (by norm_num [U32]), Nat.zero_add, Nat.mod_eq_of_lt h,
    Nat.mod_eq_of_lt (foldCarry_lt _)]

/-- Witness for the amended C4 theorem at a concrete odd-length buffer. -/
theorem checksum_matches_reference_witness :
    specSumWords [1, 2, 3] < U32 ∧ compute_checksum [1, 2, 3] = spec_checksum [1, 2, 3] :=
  ⟨by decide, checksum_matches_reference [1, 2, 3] (by decide)⟩

/-- Claim C5, counterexample: the part-1 parser rejects a frame with magic
0xCC, options bit 6 clear, length 0 and a nonzero checksum field — the
checksum field's contents do affect acceptance there, contrary to the
claim, which predicts success with exactly the empty payload. -/
theorem nonzero_checksum_field_rejected :
    parse_ctmp_message1 ⟨[0xCC, 0, 0, 0, 0, 1, 0, 0], ErrKind.eof⟩ = Except.ok none
      ∧ (Except.ok none : Except ErrKind (Option (List Nat × ByteStream)))
          ≠ Except.ok (some (([0xCC, 0, 0, 0, 0, 1, 0, 0] : List Nat),
              (⟨[], ErrKind.eof⟩ : ByteStream))) :=
  ⟨rfl, fun h => by simp at h⟩

/-- Claim C5, amended: the checksum-supporting parser accepts every frame
with magic 0xCC and options bit 6 clear, yielding exactly the promised
payload regardless of the checksum field; the part-1 parser additionally
requires header bytes 4-7 to be zero, so any nonzero checksum field is
rejected there. -/
theorem nonsensitive_parse_roundtrip (o l1 l2 c1 c2 r1 r2 : Nat)
    (payload rest : List Nat) (k : ErrKind)
    (ho : o &&& 64 = 0) (hlen : payload.length = be16 l1 l2) :
    parse_ctmp_message2 ⟨[0xCC, o, l1, l2, c1, c2, r1, r2] ++ (payload ++ rest), k⟩
        = Except.ok (some ([0xCC, o, l1, l2, c1, c2, r1, r2] ++ payload, ⟨rest, k⟩))
      ∧ (¬(c1 = 0 ∧ c2 = 0) →
          parse_ctmp_message1 ⟨[0xCC, 0, l1, l2, c1, c2, 0, 0] ++ (payload ++ rest), k⟩
            = Except.ok none) := by
  constructor
  · rw [parse2_eval o l1 l2 c1 c2 r1 r2 payload rest k hlen,
      if_neg (not_not_intro ho)]
  · intro hc
    exact parse1_reject 0 l1 l2 c1 c2 0 0 (payload ++ rest) k (by tauto)

/-- Witness for the amended C5 theorem at a concrete frame with junk in
the checksum field and trailing bytes beyond the payload. -/
theorem nonsensitive_parse_roundtrip_witness :
    ((0 : Nat) &&& 64 = 0)
    ∧ ([9, 9] : List Nat).length = be16 0 2
    ∧ parse_ctmp_message2 ⟨[0xCC, 0, 0, 2, 3, 4, 5, 6] ++ ([9, 9] ++ [7]), ErrKind.eof⟩
        = Except.ok (some ([0xCC, 0, 0, 2, 3, 4, 5, 6] ++ [9, 9], ⟨[7], ErrKind.eof⟩))
    ∧ parse_ctmp_message1 ⟨[0xCC, 0, 0, 2, 3, 4, 0, 0] ++ ([9, 9] ++ [7]), ErrKind.eof⟩
        = Except.ok none := by
  have h := nonsensitive_parse_roundtrip 0 0 2 3 4 5 6 [9, 9] [7] ErrKind.eof
    (by decide) (by decide)
  exact ⟨by decide, by decide, h.1, h.2 (by decide)⟩

/-- Claim C6: every frame either parser accepts is returned as exactly the
8 header bytes read followed by exactly `length` payload bytes, unmodified
(the input stream is the returned message followed by the unread rest);
and a frame with length field 0x0000 is accepted and returned as precisely
the 8-byte header with no payload. -/
theorem accepted_frame_exact_bytes :
    (∀ (s : ByteStream) (msg : List Nat) (s2 : ByteStream),
        parse_ctmp_message1 s = Except.ok (some (msg, s2)) →
        ∃ header payload : List Nat, header.length = 8
          ∧ payload.length = be16 (header.getD 2 0) (header.getD 3 0)
          ∧ msg = header ++ payload
          ∧ s.buf = header ++ payload ++ s2.buf)
    ∧ (∀ (s : ByteStream) (msg : List Nat) (s2 : ByteStream),
        parse_ctmp_message2 s = Except.ok (some (msg, s2)) →
        ∃ header payload : List Nat, header.length = 8
          ∧ payload.length = be16 (header.getD 2 0) (header.getD 3 0)
          ∧ msg = header ++ payload
          ∧ s.buf = header ++ payload ++ s2.buf)
    ∧ (∀ k : ErrKind,
        parse_ctmp_message1 ⟨[0xCC, 0, 0, 0, 0, 0, 0, 0], k⟩
          = Except.ok (some ([0xCC, 0, 0, 0, 0, 0, 0, 0], ⟨[], k⟩)))
    ∧ (∀ (o c1 c2 r1 r2 : Nat) (k : ErrKind), o &&& 64 = 0 →
        parse_ctmp_message2 ⟨[0xCC, o, 0, 0, c1, c2, r1, r2], k⟩
          = Except.ok (some ([0xCC, o, 0, 0, c1, c2, r1, r2], ⟨[], k⟩))) := by
  refine ⟨?_, ?_, ?_, ?_⟩
  · intro s msg s2 h
    unfold parse_ctmp_message1 at h
    split at h
    · split at h <;> simp_all
    next header s1 heq =>
      split at h
      · simp at h
      split at h
      · simp at h
      split at h
      · simp at h
      split at h
      · simp at h
      next data s2a heq2 =>
        simp only [Except.ok.injEq, Option.some.injEq, Prod.mk.injEq] at h
        obtain ⟨hmsg, hs2⟩ := h
        obtain ⟨hl8, hb1, _⟩ := readExact_sound 8 s header s1 heq
        obtain ⟨hlp, hb2, _⟩ := readExact_sound _ s1 data s2a heq2
        refine ⟨header, data, hl8, hlp, hmsg.symm, ?_⟩
        rw [hb1, hb2, ← hs2, List.append_assoc]
  · intro s msg s2 h
    unfold parse_ctmp_message2 at h
    split at h
    · simp at h
    next header s1 heq =>
      split at h
      · simp at h
      split at h
      · simp at h
      next data s2a heq2 =>
        have hout : msg = header ++ data ∧ s2 = s2a := by
          split at h
          · split at h
            · simp at h
            · simpa using h.symm
          · simpa using h.symm
        obtain ⟨hmsg, hs2⟩ := hout
        obtain ⟨hl8, hb1, _⟩ := readExact_sound 8 s header s1 heq
        obtain ⟨hlp, hb2, _⟩ := readExact_sound _ s1 data s2a heq2
        refine ⟨header, data, hl8, hlp, hmsg, ?_⟩
        rw [hb1, hb2, hs2, List.append_assoc]
  · intro k
    rfl
  · intro o c1 c2 r1 r2 k ho
    have he := parse2_eval o 0 0 c1 c2 r1 r2 [] [] k (by decide)
    rw [if_neg (not_not_intro ho)] at he
    simpa using he

/-- Witness for C6: a one-byte-payload frame is returned byte-for-byte,
and decomposes as an 8-byte header plus its promised payload. -/
theorem accepted_frame_exact_bytes_witness :
    parse_ctmp_message1 ⟨[0xCC, 0, 0, 1, 0, 0, 0, 0, 42], ErrKind.eof⟩
        = Except.ok (some ([0xCC, 0, 0, 1, 0, 0, 0, 0, 42], ⟨[], ErrKind.eof⟩))
    ∧ ∃ header payload : List Nat, header.length = 8
        ∧ payload.length = be16 (header.getD 2 0) (header.getD 3 0)
        ∧ [0xCC, 0, 0, 1, 0, 0, 0, 0, 42] = header ++ payload
        ∧ (⟨[0xCC, 0, 0, 1, 0, 0, 0, 0, 42], ErrKind.eof⟩ : ByteStream).buf
            = header ++ payload ++ (⟨[], ErrKind.eof⟩ : ByteStream).buf := by
  have h1 : parse_ctmp_message1 ⟨[0xCC, 0, 0, 1, 0, 0, 0, 0, 42], ErrKind.eof⟩
      = Except.ok (some ([0xCC, 0, 0, 1, 0, 0, 0, 0, 42], ⟨[], ErrKind.eof⟩)) := rfl
  exact ⟨h1, accepted_frame_exact_bytes.1 _ _ _ h1⟩

/-- Claim C7, counterexample: the strict (part-1) parser rejects a header
whose version byte is 0x00 and whose trailing reserved bytes 6-7 are zero,
because byte 4 (part of the checksum field per the wire format) is
nonzero — so bytes other than offsets 1 and 6-7 do affect acceptance. -/
theorem strict_rejects_reserved_zero_frame :
    parse_ctmp_message1 ⟨[0xCC, 0, 0, 0, 1, 0, 0, 0], ErrKind.eof⟩ = Except.ok none
      ∧ (Except.ok none : Except ErrKind (Option (List Nat × ByteStream)))
          ≠ Except.ok (some (([0xCC, 0, 0, 0, 1, 0, 0, 0] : List Nat),
              (⟨[], ErrKind.eof⟩ : ByteStream))) :=
  ⟨rfl, fun h => by simp at h⟩

/-- Claim C7, amended: beyond the magic byte, the strict (part-1) parser
rejects a full header exactly when its version byte is nonzero or any of
bytes 4-7 (checksum field included) is nonzero; the lenient (checksum)
parser accepts any non-sensitive frame whatever bytes 1 and 4-7 hold, and
accepts a sensitive frame exactly when the checksum matches. -/
theorem header_validation_modes :
    (∀ (b1 l1 l2 b4 b5 b6 b7 : Nat) (rest : List Nat) (k : ErrKind),
        parse_ctmp_message1 ⟨[0xCC, b1, l1, l2, b4, b5, b6, b7] ++ rest, k⟩
            = Except.ok none
          ↔ ¬(b1 = 0 ∧ b4 = 0 ∧ b5 = 0 ∧ b6 = 0 ∧ b7 = 0))
    ∧ (∀ (o l1 l2 c1 c2 r1 r2 : Nat) (payload rest : List Nat) (k : ErrKind),
        payload.length = be16 l1 l2 →
        (o &&& 64 = 0 →
          parse_ctmp_message2 ⟨[0xCC, o, l1, l2, c1, c2, r1, r2] ++ (payload ++ rest), k⟩
            = Except.ok (some ([0xCC, o, l1, l2, c1, c2, r1, r2] ++ payload, ⟨rest, k⟩)))
        ∧ (o &&& 64 ≠ 0 →
          (parse_ctmp_message2 ⟨[0xCC, o, l1, l2, c1, c2, r1, r2] ++ (payload ++ rest), k⟩
              = Except.ok (some ([0xCC, o, l1, l2, c1, c2, r1, r2] ++ payload, ⟨rest, k⟩))
            ↔ compute_checksum ([0xCC, o, l1, l2, 0xCC, 0xCC, r1, r2] ++ payload)
                = be16 c1 c2))) := by
  constructor
  · intro b1 l1 l2 b4 b5 b6 b7 rest k
    constructor
    · intro h hall
      obtain ⟨h1, h4, h5, h6, h7⟩ := hall
      subst h1; subst h4; subst h5; subst h6; subst h7
      by_cases hlen : rest.length < be16 l1 l2
      · rw [parse1_short_payload l1 l2 rest k hlen] at h
        exact Except.noConfusion h
      · push_neg at hlen
        have htk : (rest.take (be16 l1 l2)).length = be16 l1 l2 := by
          rw [List.length_take]
          omega
        have hsplit : rest = rest.take (be16 l1 l2) ++ rest.drop (be16 l1 l2) :=
          (List.take_append_drop _ rest).symm
        rw [hsplit, parse1_success l1 l2 _ _ k htk] at h
        simp at h
    · exact parse1_reject b1 l1 l2 b4 b5 b6 b7 rest k
  · intro o l1 l2 c1 c2 r1 r2 payload rest k hlen
    have he := parse2_eval o l1 l2 c1 c2 r1 r2 payload rest k hlen
    constructor
    · intro ho
      rw [he, if_neg (not_not_intro ho)]
    · intro ho
      rw [he, if_pos ho]
      constructor
      · intro h
        by_contra hck
        rw [if_pos hck] at h
        simp at h
      · intro hck
        rw [if_neg (not_not_intro hck)]

/-- Witness for the amended C7 theorem: a nonzero version byte is rejected
by the strict parser, and the lenient parser accepts a zero-length
non-sensitive frame with junk in bytes 4-7. -/
theorem header_validation_modes_witness :
    parse_ctmp_message1 ⟨[0xCC, 5, 0, 0, 0, 0, 0, 0] ++ [], ErrKind.eof⟩ = Except.ok none
    ∧ ([] : List Nat).length = be16 0 0
    ∧ parse_ctmp_message2 ⟨[0xCC, 0, 0, 0, 9, 9, 9, 9] ++ ([] ++ []), ErrKind.eof⟩
        = Except.ok (some ([0xCC, 0, 0, 0, 9, 9, 9, 9] ++ [], ⟨[], ErrKind.eof⟩)) := by
  refine ⟨?_, by decide, ?_⟩
  · exact (header_validation_modes.1 5 0 0 0 0 0 0 [] ErrKind.eof).mpr (by simp)
  · exact (header_validation_modes.2 0 0 0 9 9 9 9 [] [] ErrKind.eof (by decide)).1
      (by decide)

/-- Claim C8: because add, broadcast and remove each hold the registry
lock for their full duration, a concurrent execution is a serialized
history of whole operations; along any such history every registered
consumer's byte log is a concatenation of complete broadcast messages —
it holds the whole bytes of a broadcast or none of them, never a proper
prefix. -/
theorem consumer_receives_whole_messages (ops : List Op) (sk : Sink)
    (h : sk ∈ run ops []) :
    ∃ ms : List (List Nat), ms ⊆ msgsOf ops ∧ sk.received = ms.flatten := by
  have := run_received_join ops [] [] (by intro x hx; simp at hx) sk h
  simpa using this

/-- Witness for C8 on a two-operation history. -/
theorem consumer_receives_whole_messages_witness :
    (⟨1, false, [7, 8]⟩ : Sink) ∈ run [Op.addSink 1 false, Op.bcast [7, 8]] []
    ∧ ∃ ms : List (List Nat), ms ⊆ msgsOf [Op.addSink 1 false, Op.bcast [7, 8]]
        ∧ (⟨1, false, [7, 8]⟩ : Sink).received = ms.flatten := by
  have hm : (⟨1, false, [7, 8]⟩ : Sink) ∈ run [Op.addSink 1 false, Op.bcast [7, 8]] [] := by
    decide
  exact ⟨hm, consumer_receives_whole_messages _ _ hm⟩

end Wirestorm
